import Mathlib

/-!
Verification of the key-value store with a write-ahead transaction log.

The Go sources are embedded shallowly:

* `core.go` — the in-memory `store` (a `map[string]string` guarded by a
  `sync.RWMutex`) with `Put`, `Get`, `Delete`.
* the transaction-log file — `Event`, `EventType`, the file-backed
  `FileTransactionLogger` (`Run`, `ReadEvents`, `WritePut`, `WriteDelete`)
  and the Postgres-backed `PostgresTransactionLogger`.
* the recovery loop `initializeTransactionLog`, which replays the log
  through `Put`/`Delete` on startup.

Go's `map[string]string` is modelled as `String → Option String`; the
mutex discipline is modelled separately as the sequence of lock/unlock
actions each operation performs.  Machine integers (`uint64` sequence
numbers) are modelled as `Nat` with an explicit `% 2 ^ 64` where the code
increments them.
-/

namespace KV

/-- The contents of Go's `map[string]string`: a key is present iff the
function returns `some` value. -/
def Store : Type := String → Option String

/-- Go's `make(map[string]string)`: the empty map. -/
def emptyStore : Store := fun _ => none

/-- Go's `store.m[key] = value` (map assignment). -/
def mapAssign (s : Store) (key value : String) : Store :=
  fun q => if q = key then some value else s q

/-- Go's built-in `delete(store.m, key)`. -/
def mapRemove (s : Store) (key : String) : Store :=
  fun q => if q = key then none else s q

/-- The error values surfaced by the store: `ErrorNoSuchKey` from core.go. -/
inductive KVError : Type
  | noSuchKey
  deriving DecidableEq, Repr

/-- Go `Put(key, value string) error` from core.go: assigns into the map
and returns `nil`. -/
def Put (s : Store) (key value : String) : Store × Option KVError :=
  (mapAssign s key value, none)

/-- Go `Get(key string) (string, error)` from core.go: looks the key up,
returning `ErrorNoSuchKey` when absent. -/
def Get (s : Store) (key : String) : Except KVError String :=
  match s key with
  | some value => .ok value
  | none => .error .noSuchKey

/-- Go `Delete(key string) error` from core.go: deletes from the map and
returns `nil`. -/
def Delete (s : Store) (key : String) : Store × Option KVError :=
  (mapRemove s key, none)

/-- Claim C5: `Get` returns the stored value exactly when the key is
present and signals `ErrorNoSuchKey` exactly when it is absent; in
particular a key never `Put`, or `Put` and then `Delete`d, yields
`ErrorNoSuchKey`. -/
theorem get_present_or_not_found (s : Store) (key : String) :
    (∀ v, s key = some v → Get s key = .ok v) ∧
    (s key = none → Get s key = .error .noSuchKey) ∧
    Get emptyStore key = .error .noSuchKey ∧
    (∀ s₀ v, Get (Delete (Put s₀ key v).1 key).1 key = .error .noSuchKey) := by
  refine ⟨fun v hv => ?_, fun hn => ?_, ?_, fun s₀ v => ?_⟩
  · simp [Get, hv]
  · simp [Get, hn]
  · simp [Get, emptyStore]
  · simp [Get, Delete, Put, mapRemove, mapAssign]

/-- Witness for C5 at concrete inputs. -/
theorem get_present_or_not_found_witness :
    Get emptyStore "a" = .error .noSuchKey ∧
    Get (Delete (Put emptyStore "a" "1").1 "a").1 "a" = .error .noSuchKey ∧
    ((mapAssign emptyStore "a" "1") "a" = some "1" ∧
      Get (mapAssign emptyStore "a" "1") "a" = .ok "1") :=
  ⟨(get_present_or_not_found emptyStore "a").2.2.1,
   (get_present_or_not_found emptyStore "a").2.2.2 emptyStore "1",
   rfl,
   (get_present_or_not_found (mapAssign emptyStore "a" "1") "a").1 "1" rfl⟩

/-- Claim C6: `Put` always succeeds (returns `nil`), afterwards the store
maps the key to the value (inserting an absent key, overwriting a present
one), other keys are untouched, and a second `Put` on the same key wins. -/
theorem put_insert_or_overwrite (s : Store) (key value : String) :
    (Put s key value).2 = none ∧
    (Put s key value).1 key = some value ∧
    (∀ q, q ≠ key → (Put s key value).1 q = s q) ∧
    (∀ value', (Put (Put s key value).1 key value').1 key = some value') := by
  refine ⟨rfl, by simp [Put, mapAssign], fun q hq => ?_, fun value' => ?_⟩
  · simp [Put, mapAssign, hq]
  · simp [Put, mapAssign]

/-- Witness for C6 at concrete inputs. -/
theorem put_insert_or_overwrite_witness :
    (Put emptyStore "k" "v").2 = none ∧
    (Put emptyStore "k" "v").1 "k" = some "v" ∧
    ("q" ≠ "k" ∧ (Put emptyStore "k" "v").1 "q" = emptyStore "q") ∧
    (Put (Put emptyStore "k" "v").1 "k" "w").1 "k" = some "w" :=
  ⟨(put_insert_or_overwrite emptyStore "k" "v").1,
   (put_insert_or_overwrite emptyStore "k" "v").2.1,
   ⟨by decide, (put_insert_or_overwrite emptyStore "k" "v").2.2.1 "q" (by decide)⟩,
   (put_insert_or_overwrite emptyStore "k" "v").2.2.2 "w"⟩

/-- Claim C7: `Delete` always succeeds (returns `nil`), removes the key
when present, leaves other keys untouched, and on an absent key is a
no-op that leaves the store unchanged. -/
theorem delete_removes_or_noop (s : Store) (key : String) :
    (Delete s key).2 = none ∧
    (Delete s key).1 key = none ∧
    (∀ q, q ≠ key → (Delete s key).1 q = s q) ∧
    (s key = none → (Delete s key).1 = s) := by
  refine ⟨rfl, by simp [Delete, mapRemove], fun q hq => ?_, fun habs => ?_⟩
  · simp [Delete, mapRemove, hq]
  · funext q
    by_cases hq : q = key
    · subst hq; simp [Delete, mapRemove, habs]
    · simp [Delete, mapRemove, hq]

/-- Witness for C7 at concrete inputs. -/
theorem delete_removes_or_noop_witness :
    (Delete (Put emptyStore "k" "v").1 "k").2 = none ∧
    (Delete (Put emptyStore "k" "v").1 "k").1 "k" = none ∧
    ("q" ≠ "k" ∧ (Delete (Put emptyStore "k" "v").1 "k").1 "q" =
      (Put emptyStore "k" "v").1 "q") ∧
    (emptyStore "k" = none ∧ (Delete emptyStore "k").1 = emptyStore) :=
  ⟨(delete_removes_or_noop (Put emptyStore "k" "v").1 "k").1,
   (delete_removes_or_noop (Put emptyStore "k" "v").1 "k").2.1,
   ⟨by decide, (delete_removes_or_noop (Put emptyStore "k" "v").1 "k").2.2.1 "q" (by decide)⟩,
   ⟨rfl, (delete_removes_or_noop emptyStore "k").2.2.2 rfl⟩⟩

/-- Go's `EventType` is a `byte`; `EventDelete = 1`. -/
def EventDelete : Nat := 1

/-- Go's `EventType` constant `EventPut = 2`. -/
def EventPut : Nat := 2

/-- Go's `Event` struct: `{Sequence uint64; EventType EventType; Key string;
Value string}`.  `uint64` and `byte` are modelled as `Nat` (bounds are
imposed where the code imposes them). -/
structure Event : Type where
  sequence : Nat
  eventType : Nat
  key : String
  value : String
  deriving DecidableEq, Repr

/-- One iteration of the replay loop in `initializeTransactionLog`: the
`switch e.EventType` that dispatches `EventDelete` to `Delete` and
`EventPut` to `Put`, and falls through (no `default` case) otherwise. -/
def applyEvent (s : Store) (e : Event) : Store × Option KVError :=
  if e.eventType = EventDelete then Delete s e.key
  else if e.eventType = EventPut then Put s e.key e.value
  else (s, none)

/-- The replay loop of `initializeTransactionLog` over the drained event
stream: events are applied one by one; a non-nil `err` from the dispatch
stops the loop (the `for ok && err == nil` condition). -/
def replayLoop : Store → List Event → Store × Option KVError
  | s, [] => (s, none)
  | s, e :: rest =>
    match applyEvent s e with
    | (s', none) => replayLoop s' rest
    | (s', some err) => (s', some err)

/-- A direct client mutation: the calls the request layer makes. -/
inductive Op : Type
  | put (key value : String)
  | del (key : String)
  deriving DecidableEq, Repr

/-- Direct application of one mutation through the store API. -/
def applyOp (s : Store) : Op → Store × Option KVError
  | .put key value => Put s key value
  | .del key => Delete s key

/-- Direct application of a sequence of mutations, in order. -/
def runOps (s : Store) (ops : List Op) : Store :=
  ops.foldl (fun s op => (applyOp s op).1) s

/-- The event that `WritePut` / `WriteDelete` construct for a mutation:
the `Sequence` field is left at its zero value and a `Delete` carries an
empty `Value`. -/
def opEvent : Op → Event
  | .put key value => { sequence := 0, eventType := EventPut, key := key, value := value }
  | .del key => { sequence := 0, eventType := EventDelete, key := key, value := "" }

theorem applyEvent_opEvent (s : Store) (op : Op) :
    applyEvent s (opEvent op) = applyOp s op := by
  cases op <;> rfl

theorem replayLoop_cons (s : Store) (e : Event) (rest : List Event) :
    replayLoop s (e :: rest) =
      match applyEvent s e with
      | (s', none) => replayLoop s' rest
      | (s', some err) => (s', some err) := rfl

/-- The scenario store of C1: Put("a","1"), Put("b","2"), Delete("a"). -/
def scenarioOps : List Op := [.put "a" "1", .put "b" "2", .del "a"]

/-- Claim C1: replaying any finite sequence of Put/Delete events through
the recovery loop produces exactly the state of applying the same
operations directly to an empty store (and no error); in particular after
replaying Put("a","1"), Put("b","2"), Delete("a") the store answers
`Get "a" = ErrorNoSuchKey` and `Get "b" = "2"`. -/
theorem replay_eq_direct (ops : List Op) :
    replayLoop emptyStore (ops.map opEvent) = (runOps emptyStore ops, none) ∧
    Get (replayLoop emptyStore (scenarioOps.map opEvent)).1 "a" = .error .noSuchKey ∧
    Get (replayLoop emptyStore (scenarioOps.map opEvent)).1 "b" = .ok "2" := by
  have main : ∀ (ops : List Op) (s : Store),
      replayLoop s (ops.map opEvent) = (runOps s ops, none) := by
    intro ops
    induction ops with
    | nil => intro s; rfl
    | cons op rest ih =>
      intro s
      have hsplit : applyOp s op = ((applyOp s op).1, none) := by
        cases op <;> rfl
      have step : replayLoop s ((op :: rest).map opEvent)
          = replayLoop (applyOp s op).1 (rest.map opEvent) := by
        rw [List.map_cons, replayLoop_cons, applyEvent_opEvent, hsplit]
      rw [step, ih]
      rfl
  refine ⟨main ops emptyStore, ?_, ?_⟩
  · rw [main scenarioOps emptyStore]
    rfl
  · rw [main scenarioOps emptyStore]
    rfl

/-- Claim C10: during replay, an event whose kind is neither `EventPut`
nor `EventDelete` (including the zero value) is silently skipped: it
leaves the store unchanged, produces no error, and replay continues with
the remaining events. -/
theorem replay_skips_unknown_events (s : Store) (e : Event) (rest : List Event)
    (h1 : e.eventType ≠ EventDelete) (h2 : e.eventType ≠ EventPut) :
    applyEvent s e = (s, none) ∧ replayLoop s (e :: rest) = replayLoop s rest := by
  have ha : applyEvent s e = (s, none) := by
    simp [applyEvent, h1, h2]
  exact ⟨ha, by rw [replayLoop_cons, ha]⟩

/-- Witness for C10 at the zero-valued event kind. -/
theorem replay_skips_unknown_events_witness :
    ((0 : Nat) ≠ EventDelete ∧ (0 : Nat) ≠ EventPut) ∧
    applyEvent emptyStore ⟨5, 0, "x", "y"⟩ = (emptyStore, none) ∧
    replayLoop emptyStore [⟨5, 0, "x", "y"⟩] = replayLoop emptyStore [] :=
  ⟨⟨by decide, by decide⟩,
   (replay_skips_unknown_events emptyStore ⟨5, 0, "x", "y"⟩ [] (by decide) (by decide)).1,
   (replay_skips_unknown_events emptyStore ⟨5, 0, "x", "y"⟩ [] (by decide) (by decide)).2⟩

/-- The writer goroutine of `FileTransactionLogger.Run`: for each event
drained from the channel (in FIFO order) it increments `lastSequence`
(a `uint64`, hence the `% 2 ^ 64`) and persists a record carrying the
incremented sequence together with the event's kind, key and value; the
event's own `Sequence` field is ignored.  The returned list is the
sequence of persisted records in write order. -/
def runWriter (lastSequence : Nat) : List Event → List Event
  | [] => []
  | e :: rest =>
    { sequence := (lastSequence + 1) % 2 ^ 64, eventType := e.eventType,
      key := e.key, value := e.value }
      :: runWriter ((lastSequence + 1) % 2 ^ 64) rest

/-- Claim C2: the writer persists events in exactly the enqueue order,
assigning sequence numbers `lastSequence + 1, lastSequence + 2, …`
(strictly increasing consecutive integers, starting at 1 when
`lastSequence = 0`, i.e. on an empty log, and continuing from the replay
maximum otherwise), and the assigned numbers never come from the
caller-constructed event's `Sequence` field. -/
theorem writer_assigns_sequences (lastSequence : Nat) (events : List Event)
    (hno : lastSequence + events.length < 2 ^ 64) :
    (runWriter lastSequence events).map (fun e => (e.eventType, e.key, e.value))
      = events.map (fun e => (e.eventType, e.key, e.value)) ∧
    (runWriter lastSequence events).map Event.sequence
      = List.range' (lastSequence + 1) events.length ∧
    (∀ f : Event → Nat,
      runWriter lastSequence (events.map fun e => { e with sequence := f e })
        = runWriter lastSequence events) := by
  induction events generalizing lastSequence with
  | nil => exact ⟨rfl, rfl, fun _ => rfl⟩
  | cons e rest ih =>
    simp only [List.length_cons] at hno
    have hmod : (lastSequence + 1) % 2 ^ 64 = lastSequence + 1 :=
      Nat.mod_eq_of_lt (by omega)
    obtain ⟨ih1, ih2, ih3⟩ := ih (lastSequence + 1) (by omega)
    refine ⟨?_, ?_, fun f => ?_⟩
    · simp only [runWriter, List.map_cons, hmod, ih1]
    · simp only [runWriter, List.map_cons, hmod, ih2, List.length_cons, List.range'_succ]
    · simp only [runWriter, List.map_cons, hmod, ih3 f]

/-- Witness for C2: an empty log (`lastSequence = 0`) and two enqueued
events whose own `Sequence` fields hold junk values 99 and 5; the
persisted records carry sequences 1 and 2 in enqueue order. -/
theorem writer_assigns_sequences_witness :
    (0 : Nat) + ([⟨99, 2, "a", "1"⟩, ⟨5, 1, "b", ""⟩] : List Event).length < 2 ^ 64 ∧
    (runWriter 0 [⟨99, 2, "a", "1"⟩, ⟨5, 1, "b", ""⟩]).map Event.sequence = [1, 2] ∧
    (runWriter 0 [⟨99, 2, "a", "1"⟩, ⟨5, 1, "b", ""⟩]).map
        (fun e => (e.eventType, e.key, e.value))
      = [(2, "a", "1"), (1, "b", "")] := by
  have h := writer_assigns_sequences 0 [⟨99, 2, "a", "1"⟩, ⟨5, 1, "b", ""⟩] (by norm_num)
  refine ⟨by norm_num, ?_, ?_⟩
  · rw [h.2.1]; decide
  · rw [h.1]; decide

/-- The primitive steps of a store operation in core.go, as far as the
lock discipline is concerned: the four `sync.RWMutex` calls and the
accesses to the shared map `store.m`. -/
inductive Action : Type
  | lock | unlock | rlock | runlock | mapRead | mapWrite
  deriving DecidableEq, Repr

/-- The steps of `Put` in core.go: `store.Lock()`, the map assignment,
then the deferred `store.Unlock()`. -/
def putActions : List Action := [.lock, .mapWrite, .unlock]

/-- The steps of `Get` in core.go: `store.RLock()`, the map read, then
the deferred `store.RUnlock()`. -/
def getActions : List Action := [.rlock, .mapRead, .runlock]

/-- The steps of `Delete` in core.go: the bare `delete(store.m, key)` —
the source takes no lock at all around it. -/
def deleteActions : List Action := [.mapWrite]

/-- Checks that every mutation of the map in a step sequence happens
while the write lock is held, tracking the number of open `Lock` calls. -/
def mutationsLocked : List Action → Nat → Bool
  | [], _ => true
  | .lock :: rest, depth => mutationsLocked rest (depth + 1)
  | .unlock :: rest, depth => mutationsLocked rest (depth - 1)
  | .mapWrite :: rest, depth => decide (0 < depth) && mutationsLocked rest depth
  | _ :: rest, depth => mutationsLocked rest depth

/-- Claim C9 fails on the code: `Put` does mutate the map under the
write lock, but `Delete` in core.go mutates `store.m` with no lock held,
so not every mutating operation holds the map-wide write lock. -/
theorem delete_mutates_without_lock :
    mutationsLocked putActions 0 = true ∧
    mutationsLocked deleteActions 0 = false := by
  decide

/-- The whitespace characters that Go's `fmt` scanning functions treat
as token separators: the `space` range table of fmt/scan.go
(U+0009–U+000D, U+0020, U+0085, U+00A0, U+1680, U+2000–U+200A,
U+2028–U+2029, U+202F, U+205F, U+3000). -/
def isSpaceChar (c : Char) : Bool :=
  (0x09 ≤ c.toNat && c.toNat ≤ 0x0d) || c.toNat == 0x20 || c.toNat == 0x85
    || c.toNat == 0xa0 || c.toNat == 0x1680
    || (0x2000 ≤ c.toNat && c.toNat ≤ 0x200a)
    || c.toNat == 0x2028 || c.toNat == 0x2029 || c.toNat == 0x202f
    || c.toNat == 0x205f || c.toNat == 0x3000

/-- The decimal digit characters, as emitted by Go's `%d` verb. -/
def digitChar (d : Nat) : Char :=
  if d = 0 then '0' else if d = 1 then '1' else if d = 2 then '2'
  else if d = 3 then '3' else if d = 4 then '4' else if d = 5 then '5'
  else if d = 6 then '6' else if d = 7 then '7' else if d = 8 then '8' else '9'

/-- Decimal digit test, as accepted by Go's `%d` verb for an unsigned
operand. -/
def isDigitChar (c : Char) : Bool :=
  48 ≤ c.toNat && c.toNat ≤ 57

/-- The digit-emitting loop behind Go's `%d` verb, fuel-indexed: digits
are produced least-significant first and prepended. -/
def natDigitsAux : Nat → Nat → List Char → List Char
  | 0, _, ds => ds
  | fuel + 1, n, ds =>
    if n / 10 = 0 then digitChar (n % 10) :: ds
    else natDigitsAux fuel (n / 10) (digitChar (n % 10) :: ds)

/-- The decimal rendering of a natural number by Go's `%d` verb. -/
def natDigits (n : Nat) : List Char := natDigitsAux (n + 1) n []

/-- Recursive specification of the decimal rendering, used in proofs. -/
def digitsSpec (n : Nat) : List Char :=
  if _h : n < 10 then [digitChar n] else digitsSpec (n / 10) ++ [digitChar (n % 10)]
termination_by n
decreasing_by exact Nat.div_lt_self (by omega) (by omega)

theorem natDigitsAux_eq_spec (fuel : Nat) :
    ∀ n ds, n < fuel → natDigitsAux fuel n ds = digitsSpec n ++ ds := by
  induction fuel with
  | zero => intro n ds h; omega
  | succ fuel ih =>
    intro n ds h
    by_cases hn : n < 10
    · have h0 : n / 10 = 0 := Nat.div_eq_of_lt hn
      have hm : n % 10 = n := Nat.mod_eq_of_lt hn
      rw [natDigitsAux, if_pos h0, hm, digitsSpec, dif_pos hn]
      rfl
    · have h0 : n / 10 ≠ 0 := by omega
      have hdiv : n / 10 < fuel := by omega
      rw [natDigitsAux, if_neg h0, ih (n / 10) _ hdiv]
      conv_rhs => rw [digitsSpec]
      rw [dif_neg hn, List.append_assoc]
      rfl

theorem natDigits_eq_spec (n : Nat) : natDigits n = digitsSpec n := by
  rw [natDigits, natDigitsAux_eq_spec (n + 1) n [] (Nat.lt_succ_self n),
    List.append_nil]

theorem digitChar_props : ∀ d < 10,
    (digitChar d).toNat = 48 + d ∧ isDigitChar (digitChar d) = true ∧
      isSpaceChar (digitChar d) = false := by
  decide

theorem digitsSpec_mem (n : Nat) :
    ∀ c ∈ digitsSpec n, isDigitChar c = true ∧ isSpaceChar c = false := by
  induction n using Nat.strong_induction_on with
  | _ n ih =>
    by_cases hn : n < 10
    · rw [digitsSpec, dif_pos hn]
      intro c hc
      rw [List.mem_singleton] at hc
      subst hc
      exact ⟨(digitChar_props n hn).2.1, (digitChar_props n hn).2.2⟩
    · rw [digitsSpec, dif_neg hn]
      intro c hc
      rcases List.mem_append.mp hc with h | h
      · exact ih (n / 10) (Nat.div_lt_self (by omega) (by omega)) c h
      · rw [List.mem_singleton] at h
        subst h
        have hm : n % 10 < 10 := Nat.mod_lt n (by omega)
        exact ⟨(digitChar_props _ hm).2.1, (digitChar_props _ hm).2.2⟩

theorem digitsSpec_ne_nil (n : Nat) : digitsSpec n ≠ [] := by
  rw [digitsSpec]
  by_cases hn : n < 10
  · rw [dif_pos hn]; simp
  · rw [dif_neg hn]; simp

/-- Decoding of a digit string back to its value, the accumulator loop of
Go's `%d` scanning verb. -/
def decodeDigits (cs : List Char) : Nat :=
  cs.foldl (fun acc c => acc * 10 + (c.toNat - 48)) 0

theorem decodeDigits_digitsSpec (n : Nat) : decodeDigits (digitsSpec n) = n := by
  induction n using Nat.strong_induction_on with
  | _ n ih =>
    by_cases hn : n < 10
    · rw [digitsSpec, dif_pos hn]
      show 0 * 10 + ((digitChar n).toNat - 48) = n
      rw [(digitChar_props n hn).1]
      omega
    · rw [digitsSpec, dif_neg hn]
      show List.foldl _ 0 (digitsSpec (n / 10) ++ [digitChar (n % 10)]) = n
      rw [List.foldl_append]
      have hdiv := ih (n / 10) (Nat.div_lt_self (by omega) (by omega))
      rw [show List.foldl (fun acc c => acc * 10 + (c.toNat - 48)) 0 (digitsSpec (n / 10))
          = n / 10 from hdiv]
      show (n / 10) * 10 + ((digitChar (n % 10)).toNat - 48) = n
      rw [(digitChar_props (n % 10) (Nat.mod_lt n (by omega))).1]
      omega

/-- Splitting a character stream into maximal whitespace-separated
tokens, the way Go's `fmt` scanning consumes `%s` operands; `acc` holds
the (reversed) token being read. -/
def tokenizeAux : List Char → List Char → List (List Char)
  | [], acc => if acc = [] then [] else [acc.reverse]
  | c :: cs, acc =>
    if isSpaceChar c then
      if acc = [] then tokenizeAux cs []
      else acc.reverse :: tokenizeAux cs []
    else tokenizeAux cs (c :: acc)

/-- The whitespace-separated tokens of a line. -/
def tokenize (cs : List Char) : List (List Char) := tokenizeAux cs []

/-- Go's `%d` verb scanning an unsigned operand: a nonempty run of
decimal digits, decoded; anything else is a scan error (`none`). -/
def decodeNat (cs : List Char) : Option Nat :=
  if cs ≠ [] ∧ cs.all isDigitChar then some (decodeDigits cs) else none

/-- The `fmt.Sscanf(line, "%d\t%d\t%s\t%s", …)` call of
`FileTransactionLogger.ReadEvents`: the line is consumed as
whitespace-separated tokens; the first token must be a decimal number
fitting `uint64` (the `Sequence` field), the second a decimal number
fitting `byte` (the `EventType` field), and the next two tokens are
taken verbatim as `Key` and `Value`.  Fewer than four tokens means the
scan runs out of input and errors; input after the fourth token is left
unconsumed, as `Sscanf` ignores it. -/
def parseLine (line : List Char) : Option Event :=
  match tokenize line with
  | t1 :: t2 :: t3 :: t4 :: _ =>
    match decodeNat t1, decodeNat t2 with
    | some seq, some kind =>
      if seq < 2 ^ 64 ∧ kind < 256 then
        some { sequence := seq, eventType := kind, key := String.mk t3,
               value := String.mk t4 }
      else none
    | _, _ => none
  | _ => none

/-- The `fmt.Fprintf(l.file, "%d\t%d\t%s\t%s\n", …)` call of the writer
goroutine: the persisted line for one record, without the trailing
newline (which the replay scanner strips before parsing). -/
def formatLine (seq kind : Nat) (key value : String) : List Char :=
  natDigits seq ++ '\t' :: (natDigits kind ++ '\t' :: (key.data ++ '\t' :: value.data))

theorem tokenizeAux_append (tok : List Char) :
    ∀ cs acc, (∀ c ∈ tok, isSpaceChar c = false) →
      tokenizeAux (tok ++ cs) acc = tokenizeAux cs (tok.reverse ++ acc) := by
  induction tok with
  | nil => intro cs acc _; rfl
  | cons c tok' ih =>
    intro cs acc hns
    have hc : isSpaceChar c = false := hns c (List.mem_cons_self c tok')
    show tokenizeAux (c :: (tok' ++ cs)) acc = _
    rw [tokenizeAux, hc]
    simp only [Bool.false_eq_true, if_false]
    rw [ih cs (c :: acc) (fun x hx => hns x (List.mem_cons_of_mem c hx))]
    simp [List.append_assoc]

theorem tokenize_token_sep (tok : List Char) (rest : List Char)
    (hne : tok ≠ []) (hns : ∀ c ∈ tok, isSpaceChar c = false) :
    tokenize (tok ++ '\t' :: rest) = tok :: tokenize rest := by
  rw [tokenize, tokenizeAux_append tok ('\t' :: rest) [] hns, List.append_nil]
  rw [tokenizeAux]
  have hsp : isSpaceChar '\t' = true := by decide
  rw [hsp]
  have hrev : tok.reverse ≠ [] := by
    simpa using hne
  simp only [if_true, hrev, if_false, List.reverse_reverse]
  rfl

theorem tokenize_last_token (tok : List Char)
    (hne : tok ≠ []) (hns : ∀ c ∈ tok, isSpaceChar c = false) :
    tokenize tok = [tok] := by
  have h1 : tokenize (tok ++ []) = [tok] := by
    rw [tokenize, tokenizeAux_append tok [] [] hns, List.append_nil, tokenizeAux]
    have hrev : tok.reverse ≠ [] := by simpa using hne
    simp [hrev]
  simpa using h1

theorem decodeNat_natDigits (n : Nat) : decodeNat (natDigits n) = some n := by
  rw [natDigits_eq_spec]
  have hne := digitsSpec_ne_nil n
  have hall : (digitsSpec n).all isDigitChar = true := by
    rw [List.all_eq_true]
    exact fun c hc => (digitsSpec_mem n c hc).1
  rw [decodeNat, if_pos ⟨hne, hall⟩, decodeDigits_digitsSpec]

theorem natDigits_not_space (n : Nat) :
    ∀ c ∈ natDigits n, isSpaceChar c = false := by
  rw [natDigits_eq_spec]
  exact fun c hc => (digitsSpec_mem n c hc).2

theorem stringMk_data (s : String) : String.mk s.data = s := by
  cases s
  rfl

/-- Claim C3, amended: serializing a record whose key and value are
nonempty and contain no whitespace (and whose sequence fits `uint64` and
kind fits `byte`, as the Go field types force) and parsing the line back
yields the identical record — same kind, key and value, and also the
same sequence. -/
theorem serialize_parse_roundtrip (seq kind : Nat) (key value : String)
    (hseq : seq < 2 ^ 64) (hkind : kind < 256)
    (hk1 : key.data ≠ []) (hk2 : ∀ c ∈ key.data, isSpaceChar c = false)
    (hv1 : value.data ≠ []) (hv2 : ∀ c ∈ value.data, isSpaceChar c = false) :
    parseLine (formatLine seq kind key value)
      = some { sequence := seq, eventType := kind, key := key, value := value } := by
  have hd1 : natDigits seq ≠ [] := by
    rw [natDigits_eq_spec]; exact digitsSpec_ne_nil seq
  have hd2 : natDigits kind ≠ [] := by
    rw [natDigits_eq_spec]; exact digitsSpec_ne_nil kind
  have htok : tokenize (formatLine seq kind key value)
      = [natDigits seq, natDigits kind, key.data, value.data] := by
    rw [formatLine,
      tokenize_token_sep _ _ hd1 (natDigits_not_space seq),
      tokenize_token_sep _ _ hd2 (natDigits_not_space kind),
      tokenize_token_sep _ _ hk1 hk2,
      tokenize_last_token _ hv1 hv2]
  rw [parseLine, htok]
  simp only [decodeNat_natDigits]
  rw [if_pos ⟨hseq, hkind⟩, stringMk_data, stringMk_data]

/-- Witness for the amended C3 at a concrete record. -/
theorem serialize_parse_roundtrip_witness :
    ((3 : Nat) < 2 ^ 64 ∧ EventPut < 256 ∧ "a".data ≠ [] ∧ "b".data ≠ []) ∧
    parseLine (formatLine 3 EventPut "a" "b")
      = some { sequence := 3, eventType := EventPut, key := "a", value := "b" } :=
  ⟨⟨by norm_num, by decide, by decide, by decide⟩,
   serialize_parse_roundtrip 3 EventPut "a" "b" (by norm_num) (by decide)
     (by decide) (by decide) (by decide) (by decide)⟩

/-- Counterexample to C3 as stated: the event that `WriteDelete("k")`
constructs carries an empty `Value`, its persisted line ends in a bare
tab, and `Sscanf` then finds only three tokens and fails — parsing does
not give back the event (it gives nothing at all).  Likewise a key
containing a space shifts the token boundaries, and the parse silently
yields a different event. -/
theorem serialize_parse_roundtrip_fails_on_empty_value :
    (parseLine (formatLine 1 EventDelete "k" "") = none ∧
      parseLine (formatLine 1 EventDelete "k" "")
        ≠ some { sequence := 1, eventType := EventDelete, key := "k", value := "" }) ∧
    (parseLine (formatLine 1 EventPut "a b" "v")
        = some { sequence := 1, eventType := EventPut, key := "a", value := "b" } ∧
      parseLine (formatLine 1 EventPut "a b" "v")
        ≠ some { sequence := 1, eventType := EventPut, key := "a b", value := "v" }) := by
  refine ⟨⟨?_, ?_⟩, ?_, ?_⟩
  · decide
  · decide
  · decide
  · decide

/-- The errors `FileTransactionLogger.ReadEvents` can send on its error
channel while scanning lines: the `input parse error` and the
`transaction numbers out of sequence` error. -/
inductive ReadError : Type
  | parseFailure
  | orderingViolation
  deriving DecidableEq, Repr

/-- The scanning goroutine of `FileTransactionLogger.ReadEvents` over the
lines of the log file: each line is parsed with `Sscanf`; a parse failure
sends the parse error and returns; a parsed sequence not strictly greater
than `lastSequence` sends the ordering error and returns; otherwise
`lastSequence` is updated and the event is sent on the event channel.
Returns the events sent in order, the final `lastSequence`, and the error
sent, if any. -/
def readEventsFrom (lastSequence : Nat) :
    List (List Char) → List Event × Nat × Option ReadError
  | [] => ([], lastSequence, none)
  | line :: rest =>
    match parseLine line with
    | none => ([], lastSequence, some .parseFailure)
    | some e =>
      if lastSequence ≥ e.sequence then ([], lastSequence, some .orderingViolation)
      else
        let r := readEventsFrom e.sequence rest
        (e :: r.1, r.2)

/-- Claim C4: when replay reaches a record whose sequence is not strictly
greater than the previously read sequence, it reports the ordering
violation and stops at once: the events produced are exactly those of the
clean prefix, and nothing from the offending record or any later record
is emitted. -/
theorem replay_aborts_on_ordering_violation
    (lastSequence : Nat) (pre : List (List Char)) (bad : List Char)
    (suf : List (List Char)) (evs : List Event) (last' : Nat) (e : Event)
    (hpre : readEventsFrom lastSequence pre = (evs, last', none))
    (hbad : parseLine bad = some e) (hseq : e.sequence ≤ last') :
    readEventsFrom lastSequence (pre ++ bad :: suf)
      = (evs, last', some .orderingViolation) := by
  induction pre generalizing lastSequence evs with
  | nil =>
    rw [readEventsFrom] at hpre
    obtain ⟨h1, h2⟩ : [] = evs ∧ lastSequence = last' := by
      simpa using hpre
    subst h1
    subst h2
    rw [List.nil_append, readEventsFrom, hbad]
    simp only [ge_iff_le]
    rw [if_pos hseq]
  | cons line pre' ih =>
    rw [readEventsFrom] at hpre
    rw [List.cons_append, readEventsFrom]
    cases hline : parseLine line with
    | none =>
      rw [hline] at hpre
      simp at hpre
    | some e1 =>
      rw [hline] at hpre
      simp only [ge_iff_le] at hpre ⊢
      by_cases hge : e1.sequence ≤ lastSequence
      · rw [if_pos hge] at hpre
        simp at hpre
      · rw [if_neg hge] at hpre ⊢
        simp only [Prod.mk.injEq] at hpre
        obtain ⟨hevs, hrest⟩ := hpre
        have hfst : (readEventsFrom e1.sequence pre').2.1 = last' := by
          rw [hrest]
        have hsnd : (readEventsFrom e1.sequence pre').2.2 = none := by
          rw [hrest]
        have hpre' : readEventsFrom e1.sequence pre'
            = ((readEventsFrom e1.sequence pre').1, last', none) := by
          rw [← hfst, ← hsnd]
        rw [ih e1.sequence (readEventsFrom e1.sequence pre').1 hpre']
        rw [← hevs]

/-- Witness for C4: a log whose first two lines carry sequences 1 and 2,
followed by a line with the repeated sequence 2 and a further well-formed
line; replay emits only the first two events and stops with the ordering
violation. -/
theorem replay_aborts_on_ordering_violation_witness :
    readEventsFrom 0 ["1\t2\ta\t1".data, "2\t2\tb\t2".data]
      = ([⟨1, 2, "a", "1"⟩, ⟨2, 2, "b", "2"⟩], 2, none) ∧
    parseLine "2\t1\ta\tx".data = some ⟨2, 1, "a", "x"⟩ ∧
    (⟨2, 1, "a", "x"⟩ : Event).sequence ≤ 2 ∧
    readEventsFrom 0
        (["1\t2\ta\t1".data, "2\t2\tb\t2".data] ++ "2\t1\ta\tx".data :: ["3\t2\tc\t3".data])
      = ([⟨1, 2, "a", "1"⟩, ⟨2, 2, "b", "2"⟩], 2, some .orderingViolation) :=
  ⟨by decide, by decide, by decide,
   replay_aborts_on_ordering_violation 0 ["1\t2\ta\t1".data, "2\t2\tb\t2".data]
     "2\t1\ta\tx".data ["3\t2\tc\t3".data] [⟨1, 2, "a", "1"⟩, ⟨2, 2, "b", "2"⟩] 2
     ⟨2, 1, "a", "x"⟩ (by decide) (by decide) (by decide)⟩

/-- The writer goroutine of `FileTransactionLogger.Run`, with the fate of
each physical write supplied alongside the event (`none` for a write that
succeeds, `some err` for one that fails): on a failure the goroutine
sends the error on its channel and returns, so the rest of the queue is
never consumed.  Returns the durably written records and the errors sent
on the error channel. -/
def fileWriterDrain (lastSequence : Nat) :
    List (Event × Option Nat) → List Event × List Nat
  | [] => ([], [])
  | (e, none) :: rest =>
    let r := fileWriterDrain ((lastSequence + 1) % 2 ^ 64) rest
    ({ sequence := (lastSequence + 1) % 2 ^ 64, eventType := e.eventType,
       key := e.key, value := e.value } :: r.1, r.2)
  | (_, some err) :: _ => ([], [err])

/-- The writer goroutine of `PostgresTransactionLogger.Run`: on a failed
INSERT it sends the error on its channel but does not return, so it keeps
consuming the queue and keeps inserting the remaining events. -/
def pgWriterDrain : List (Event × Option Nat) → List Event × List Nat
  | [] => ([], [])
  | (e, none) :: rest =>
    let r := pgWriterDrain rest
    (e :: r.1, r.2)
  | (_, some err) :: rest =>
    let r := pgWriterDrain rest
    (r.1, err :: r.2)

/-- Counterexample to C8 as stated: for the Postgres backend, when the
first enqueued event fails to persist and a second event follows, the
failure is sent but the writer keeps going and the second event is
durably written — the claim that no event enqueued after the failing one
is ever durably written is false for that backend. -/
theorem postgres_writer_continues_after_failure :
    pgWriterDrain [(⟨0, 2, "a", "1"⟩, some 7), (⟨0, 2, "b", "2"⟩, none)]
      = ([⟨0, 2, "b", "2"⟩], [7]) ∧
    (⟨0, 2, "b", "2"⟩ : Event) ∈
      (pgWriterDrain [(⟨0, 2, "a", "1"⟩, some 7), (⟨0, 2, "b", "2"⟩, none)]).1 := by
  constructor
  · decide
  · decide

/-- Claim C8, amended: for the file backend the first persistence failure
is pushed exactly once on the error channel and the writer terminates, so
no event enqueued after the failing one is durably written (the persisted
records are exactly the successfully written prefix); the Postgres
backend pushes each failure on the error channel, but its writer loop
continues with the rest of the queue, so events enqueued after a failure
may still be durably written. -/
theorem writer_failure_behaviour (lastSequence : Nat) (pre : List Event)
    (e : Event) (err : Nat) (rest : List (Event × Option Nat)) :
    fileWriterDrain lastSequence
        (pre.map (fun ev => (ev, none)) ++ (e, some err) :: rest)
      = (runWriter lastSequence pre, [err]) ∧
    (pgWriterDrain ((e, some err) :: rest)).2 = err :: (pgWriterDrain rest).2 ∧
    (pgWriterDrain ((e, some err) :: rest)).1 = (pgWriterDrain rest).1 := by
  refine ⟨?_, rfl, rfl⟩
  induction pre generalizing lastSequence with
  | nil => rfl
  | cons p pre' ih =>
    rw [List.map_cons, List.cons_append]
    show fileWriterDrain lastSequence ((p, none) :: _) = _
    rw [fileWriterDrain, ih ((lastSequence + 1) % 2 ^ 64)]
    rfl

end KV
